import Mathlib

/-!
Verification development for TrelloRadar (src/trelloRadar.py).

The Python program is shallowly embedded below: dates are modelled as
integer day ordinals (a `datetime.date` compares and subtracts in whole
days), Trello card records become the `Card` structure, the tkinter
`ttk.Treeview` becomes an insertion-ordered list of `TreeItem`s with
globally unique string ids, and the `configparser` settings file becomes
an association list of sections, each an association list of key/value
strings.  HTTP responses are modelled by their status code, body text
and (for the search endpoint) the decoded `cards` field.
-/

namespace TrelloRadar

/-- One Trello card as consumed by `show_data` / `search_cards`:
`due` is the parsed due date as a day ordinal (`None` when absent),
`checkItems` / `checkItemsChecked` are the badge counters, and the
board / list references carry the `name` and (for boards) `url` fields
requested by the search query. -/
structure Card where
  id : String
  name : String
  url : String
  due : Option Int
  dueComplete : Bool
  boardName : String
  boardUrl : String
  listName : String
  checkItems : Nat
  checkItemsChecked : Nat
  deriving DecidableEq, Repr

/-- Due-date status tags of `show_data` (trelloRadar.py lines 362-376):
the `if c['due']:` ladder assigning `complete` / `overdue` / `duetoday` /
`duethisweek` / no tag. -/
def statusTags (today : Int) (c : Card) : List String :=
  match c.due with
  | some d =>
      if c.dueComplete then ["complete"]
      else if today > d then ["overdue"]
      else if today = d then ["duetoday"]
      else if d - today < 7 then ["duethisweek"]
      else []
  | none => []

/-- Full tag computation of `show_data` (lines 362-381): the due-date
ladder followed by the `100%` checklist marker, which the code adds only
when `not tags` and the checklist exists and is fully checked. -/
def cardTags (today : Int) (c : Card) : List String :=
  if statusTags today c = [] ∧ c.checkItems ≠ 0 ∧
      c.checkItems = c.checkItemsChecked then
    statusTags today c ++ ["100%"]
  else statusTags today c

/-- A concrete card with `dueComplete = true` but no due date. -/
def cardCompleteNoDue : Card :=
  { id := "c0", name := "task", url := "https://trello.com/c/x", due := none,
    dueComplete := true, boardName := "B", boardUrl := "https://trello.com/b/x",
    listName := "L", checkItems := 0, checkItemsChecked := 0 }

/-- A concrete overdue card whose checklist is fully completed. -/
def cardOverdueChecked : Card :=
  { id := "c1", name := "task", url := "https://trello.com/c/y", due := some (-1),
    dueComplete := false, boardName := "B", boardUrl := "https://trello.com/b/x",
    listName := "L", checkItems := 2, checkItemsChecked := 2 }

/-- Boolean strict comparison of character lists, code point by code point;
this is how Python compares the strings used as tuple sort keys. -/
def charsLt : List Char → List Char → Bool
  | [], [] => false
  | [], _ :: _ => true
  | _ :: _, [] => false
  | a :: as, b :: bs => if a < b then true else if a = b then charsLt as bs else false

/-- Strict comparison of strings by code points (Python string order). -/
def strLt (a b : String) : Bool := charsLt a.data b.data

/-- Non-strict lexicographic comparison of string tuples, as Python compares
the tuples produced by the sort key of `show_data`. -/
def lexLe : List String → List String → Bool
  | [], _ => true
  | _ :: _, [] => false
  | a :: as, b :: bs => if strLt a b then true else if a = b then lexLe as bs else false

/-- One component of the sorting preference: `'board'` or `'list'` tokens of
the `sorting` list obtained from `self.sorting.get().split()`. -/
inductive SortCat
  | board
  | list
  deriving DecidableEq, Repr

/-- The five sorting options offered by the radio buttons of `setup_gui`
(`'board list'`, `'board'`, `'list board'`, `'list'`, `''`). -/
inductive SortPref
  | boardList
  | boardOnly
  | listBoard
  | listOnly
  | nonePref
  deriving DecidableEq, Repr

/-- The `sorting` token list of each preference, as produced by `.split()`. -/
def SortPref.sorting : SortPref → List SortCat
  | .boardList => [.board, .list]
  | .boardOnly => [.board]
  | .listBoard => [.list, .board]
  | .listOnly => [.list]
  | .nonePref => []

/-- The name used in the sort key: `c[s]['name']` in `show_data`. -/
def catName : SortCat → Card → String
  | .board, c => c.boardName
  | .list, c => c.listName

/-- The category identifier: `categories[s]` in `show_data`, i.e. the board
url for `'board'` and the list name for `'list'`. -/
def catIdOf : SortCat → Card → String
  | .board, c => c.boardUrl
  | .list, c => c.listName

/-- Composite sort key `tuple(c[s]['name'] for s in sorting)`. -/
def sortKey (sorting : List SortCat) (c : Card) : List String :=
  sorting.map (fun s => catName s c)

/-- Comparison used to sort cards in `show_data`. -/
def cardLe (sorting : List SortCat) (a b : Card) : Bool :=
  lexLe (sortKey sorting a) (sortKey sorting b)

/-- Python's `sorted(cards, key=...)` is the unique stable sort by the key;
it is embedded as a stable insertion sort under `cardLe` (stable sorts by the
same total preorder agree on every input). -/
def sortCards (sorting : List SortCat) (cards : List Card) : List Card :=
  List.insertionSort (fun a b => cardLe sorting a b = true) cards

/-- Kind of a node of the `todo_tree`, distinguished in the source by the
tags `cat1name` / `cat2name` / card tags. -/
inductive NodeKind
  | cat1
  | cat2
  | cardNode
  deriving DecidableEq, Repr

/-- One `ttk.Treeview` item: its global string id, parent id (empty for a
root child), open flag, kind, display text and tags.  The flat list is kept
in insertion order, which for tkinter determines the rendered order. -/
structure TreeItem where
  id : String
  parent : String
  isOpen : Bool
  kind : NodeKind
  text : String
  tags : List String
  deriving DecidableEq, Repr

/-- Model of `self.todo_tree.exists(i)`: tkinter item ids are global. -/
def existsId (st : List TreeItem) (i : String) : Bool :=
  st.any (fun it => decide (it.id = i))

/-- Model of `self.is_item_open.get(i, True)`. -/
def lookupOpen (m : List (String × Bool)) (i : String) : Bool :=
  match m with
  | [] => true
  | p :: rest => if p.1 = i then p.2 else lookupOpen rest i

/-- Second-level category id `'|'.join(categories[s] for s in sorting)`. -/
def cat2IdOf (sorting : List SortCat) (c : Card) : String :=
  String.intercalate "|" (sorting.map (fun s => catIdOf s c))

/-- Card node id `'card|' + c['url']`. -/
def cardNodeId (c : Card) : String := "card|" ++ c.url

/-- The leaf item inserted for a card at the end of the `show_data` loop. -/
def mkCardItem (today : Int) (c : Card) (parent : String) : TreeItem :=
  { id := cardNodeId c, parent := parent, isOpen := false, kind := .cardNode,
    text := c.name, tags := cardTags today c }

/-- Append an item to the tree unless its id already exists, mirroring the
`if not self.todo_tree.exists(...)` guards of `show_data`. -/
def ensureItem (st : List TreeItem) (x : TreeItem) : List TreeItem :=
  if existsId st x.id then st else st ++ [x]

/-- The level-1 category node inserted by `show_data` for a card. -/
def cat1Item (s0 : SortCat) (m : List (String × Bool)) (c : Card) : TreeItem :=
  { id := catIdOf s0 c, parent := "", isOpen := lookupOpen m (catIdOf s0 c),
    kind := .cat1, text := catName s0 c, tags := ["cat1name"] }

/-- The level-2 category node inserted by `show_data` for a card. -/
def cat2Item (sorting : List SortCat) (s0 s1 : SortCat)
    (m : List (String × Bool)) (c : Card) : TreeItem :=
  { id := cat2IdOf sorting c, parent := catIdOf s0 c,
    isOpen := lookupOpen m (cat2IdOf sorting c),
    kind := .cat2, text := catName s1 c, tags := ["cat2name"] }

/-- One iteration of the `for c in cards:` loop of `show_data`: insert the
level-1 category node if its id is not yet in the tree (open state looked up
in `is_item_open` with default `True`), then likewise the level-2 node when
the sorting has more than one component, then the card leaf. -/
def insertCard (today : Int) (sorting : List SortCat) (m : List (String × Bool))
    (st : List TreeItem) (c : Card) : List TreeItem :=
  match sorting with
  | [] => st ++ [mkCardItem today c ""]
  | [s0] => ensureItem st (cat1Item s0 m c) ++ [mkCardItem today c (catIdOf s0 c)]
  | s0 :: s1 :: rest2 =>
      ensureItem (ensureItem st (cat1Item s0 m c))
          (cat2Item (s0 :: s1 :: rest2) s0 s1 m c) ++
        [mkCardItem today c (cat2IdOf (s0 :: s1 :: rest2) c)]

/-- Model of `show_data` after the tree has been cleared: the sorted cards
are folded into an empty tree, `m` being the `is_item_open` dictionary
recorded beforehand. -/
def showData (today : Int) (sorting : List SortCat) (m : List (String × Bool))
    (cards : List Card) : List TreeItem :=
  (sortCards sorting cards).foldl (insertCard today sorting m) []

/-- Model of `self.todo_tree.get_children(i)` being nonempty. -/
def hasChild (st : List TreeItem) (i : String) : Bool :=
  st.any (fun it => decide (it.parent = i))

/-- Helper for `recordOpen`: walk the given items, recording the open state
of every one that has children in the full tree. -/
def recordOpenAux (full : List TreeItem) : List TreeItem → List (String × Bool)
  | [] => []
  | it :: rest =>
      (if hasChild full it.id then [(it.id, it.isOpen)] else []) ++
        recordOpenAux full rest

/-- Model of `record_open_item`: the recursion from the root visits every
item of a well-formed tree and stores `is_item_open[i] = open(i)` exactly
for the items that have children. -/
def recordOpen (st : List TreeItem) : List (String × Bool) := recordOpenAux st st

/-- First occurrences of the values of a list, in order of first occurrence. -/
def dedupFirst (l : List String) : List String :=
  l.foldl (fun acc a => if a ∈ acc then acc else acc ++ [a]) []

/-- Ids of the level-1 category nodes in rendered (insertion) order. -/
def topCatIds (st : List TreeItem) : List String :=
  (st.filter (fun it => decide (it.kind = NodeKind.cat1))).map (fun it => it.id)

/-- Ids of the level-2 category nodes below group `g`, in rendered order. -/
def childCat2Ids (st : List TreeItem) (g : String) : List String :=
  (st.filter (fun it =>
    decide (it.kind = NodeKind.cat2) && decide (it.parent = g))).map (fun it => it.id)

/-- Level-1 group ids in order of first occurrence in the sorted cards. -/
def level1Ids (sorting : List SortCat) (cs : List Card) : List String :=
  match sorting with
  | [] => []
  | s0 :: _ => dedupFirst (cs.map (catIdOf s0))

/-- Level-2 group ids below group `g` in order of first occurrence among the
sorted cards whose level-1 id is `g`. -/
def level2Ids (sorting : List SortCat) (cs : List Card) (g : String) : List String :=
  match sorting with
  | s0 :: _ :: _ =>
      dedupFirst ((cs.filter (fun c => decide (catIdOf s0 c = g))).map (cat2IdOf sorting))
  | _ => []

/-- Level-1 ids drawn from a list of cards (empty when there is no level 1). -/
def cat1IdsOf (sorting : List SortCat) (P : List Card) : List String :=
  match sorting with
  | [] => []
  | s0 :: _ => P.map (catIdOf s0)

/-- Level-2 ids drawn from a list of cards (empty when there is no level 2). -/
def cat2IdsOf (sorting : List SortCat) (P : List Card) : List String :=
  match sorting with
  | _ :: _ :: _ => P.map (cat2IdOf sorting)
  | _ => []

/-- Invariant of the `show_data` insertion loop after processing the cards
`P`: the level-1 nodes are the first occurrences of the level-1 ids of `P`
in order, the level-2 nodes below each group `g` are the first occurrences
of the level-2 ids of the cards of `P` in group `g`, and every node id comes
from the matching id source of `P`. -/
def treeInv (sorting : List SortCat) (P : List Card) (st : List TreeItem) : Prop :=
  topCatIds st = level1Ids sorting P ∧
  (∀ g, childCat2Ids st g = level2Ids sorting P g) ∧
  (∀ it ∈ st, it.kind = NodeKind.cat1 → it.id ∈ cat1IdsOf sorting P) ∧
  (∀ it ∈ st, it.kind = NodeKind.cat2 → it.id ∈ cat2IdsOf sorting P) ∧
  (∀ it ∈ st, it.kind = NodeKind.cardNode → it.id ∈ P.map cardNodeId)

/-- Tree node ids derived from distinct sources do not collide.  tkinter item
ids are global, so `show_data` behaves as written only when the level-1 ids,
level-2 ids and card ids drawn from the cards are pairwise disjoint (and card
ids are distinct, since inserting a duplicate id raises in tkinter). -/
abbrev idsOk (sorting : List SortCat) (cards : List Card) : Prop :=
  (cards.map cardNodeId).Nodup ∧
  match sorting with
  | [] => True
  | [s0] => ∀ c ∈ cards, ∀ d ∈ cards, catIdOf s0 c ≠ cardNodeId d
  | s0 :: _ :: _ =>
      (∀ c ∈ cards, ∀ d ∈ cards, catIdOf s0 c ≠ cardNodeId d) ∧
      (∀ c ∈ cards, ∀ d ∈ cards, catIdOf s0 c ≠ cat2IdOf sorting d) ∧
      (∀ c ∈ cards, ∀ d ∈ cards, cat2IdOf sorting c ≠ cardNodeId d) ∧
      (∀ c ∈ cards, ∀ d ∈ cards,
        cat2IdOf sorting c = cat2IdOf sorting d → catIdOf s0 c = catIdOf s0 d)

/-- The pieces of application state touched by `send_querystring`: the text
of the query entry, the remembered search strings (`self.entry['values']`,
most recent first) and the current result tree. -/
structure AppState where
  entryText : String
  history : List String
  tree : List TreeItem
  deriving DecidableEq, Repr

/-- History update of `send_querystring`: prepend the query string unless it
is already remembered. -/
def updateHistory (q : String) (h : List String) : List String :=
  if q ∈ h then h else q :: h

/-- Model of `send_querystring`: read the entry, return unchanged if it is
empty, otherwise record the query string and rebuild the tree from the fetched
cards (`fetch` stands for `search_cards` over the network). -/
def send_querystring (today : Int) (fetch : String → List Card)
    (sorting : List SortCat) (st : AppState) : AppState :=
  if st.entryText = "" then st
  else
    { st with
      history := updateHistory st.entryText st.history,
      tree := showData today sorting (recordOpen st.tree) (fetch st.entryText) }

/-- The observable part of the HTTP response of the `/1/search` request:
status code and the decoded `cards` field of the JSON body (`none` when the
body does not decode to an object with a `cards` field). -/
structure SearchResponse where
  status : Nat
  cards : Option (List Card)
  deriving Repr

/-- Model of `search_cards` (lines 396-418): on status 200 return
`response.json()['cards']` (an exception escapes when the body is not as
expected), otherwise return the empty list. -/
def search_cards (resp : SearchResponse) : Except String (List Card) :=
  if resp.status = 200 then
    match resp.cards with
    | some cs => Except.ok cs
    | none => Except.error "malformed search response"
  else Except.ok []

/-- Outcome of `validate_credentials`: keep the stored pair, re-acquire only
the token (`get_token`), or re-acquire both key and token (`get_API_key`). -/
inductive CredAction
  | keep
  | reacquireToken
  | reacquireAll
  deriving DecidableEq, Repr

/-- Boolean substring test on character lists (Python `needle in hay`). -/
def containsSub (needle hay : List Char) : Bool :=
  hay.tails.any (fun t => needle.isPrefixOf t)

/-- Python's `needle in hay` on strings. -/
def strContains (needle hay : String) : Bool := containsSub needle.data hay.data

/-- Model of `validate_credentials` (lines 290-309), as a function of the
probe response to `GET /1/members/me/`. -/
def validate_credentials (apiKey : String) (status : Nat) (text : String) :
    CredAction :=
  if status = 200 then CredAction.keep
  else if apiKey.length = 32 ∧ strContains "invalid token" text = true then
    CredAction.reacquireToken
  else CredAction.reacquireAll

/-- Effect of each outcome on the stored credentials, given the pair that an
acquisition dialog would produce: `get_token` keeps the key and replaces the
token, `get_API_key` replaces both. -/
def applyCredAction (a : CredAction) (apiKey token newKey newToken : String) :
    String × String :=
  match a with
  | .keep => (apiKey, token)
  | .reacquireToken => (apiKey, newToken)
  | .reacquireAll => (newKey, newToken)

/-- Python `s.split(';')` on character lists: always returns at least one
(possibly empty) part. -/
def splitSemi : List Char → List (List Char)
  | [] => [[]]
  | c :: rest =>
      if c = ';' then [] :: splitSemi rest
      else
        match splitSemi rest with
        | r :: rs => (c :: r) :: rs
        | [] => [[c]]

/-- Python `';'.join(parts)` on character lists. -/
def joinSemi : List (List Char) → List Char
  | [] => []
  | [x] => x
  | x :: y :: rest => x ++ ';' :: joinSemi (y :: rest)

/-- The state persisted by `on_closing` and read back by `get_config`:
credentials, search history, sort token and the window geometry, the latter
as the decimal strings written by `on_closing` (`str(self.root.winfo_x())`
and so on). -/
structure PersistedState where
  apiKey : String
  token : String
  history : List String
  sortString : String
  posx : String
  posy : String
  width : String
  height : String
  deriving DecidableEq, Repr

/-- The settings file written by `on_closing` followed by `save_config`:
sections `auth`, `search` (history joined with `';'`), `sort` and `window`. -/
def saveConfig (st : PersistedState) : List (String × List (String × String)) :=
  [("auth", [("API key", st.apiKey), ("token", st.token)]),
   ("search", [("search strings",
     String.mk (joinSemi (st.history.map (fun s => s.data))))]),
   ("sort", [("sort string", st.sortString)]),
   ("window", [("posx", st.posx), ("posy", st.posy),
     ("width", st.width), ("height", st.height)])]

/-- Lookup of `config[section][key]`, `None` when section or key is absent. -/
def configGet (cfg : List (String × List (String × String)))
    (sec key : String) : Option String :=
  match cfg.find? (fun p => decide (p.1 = sec)) with
  | some p => (p.2.find? (fun q => decide (q.1 = key))).map (fun q => q.2)
  | none => none

/-- Model of `get_config` on a parsed settings file: the `auth` values must
both be present (otherwise the code runs the interactive `AuthDialog`
acquisition, which is outside this model and yields `none` here); the
`search`, `sort` and `window` sections fall back to the class-attribute
defaults `['@me']`, `'board list'` and `0/0/540/700` exactly as the code
does when they are missing. -/
def loadConfig (cfg : List (String × List (String × String))) :
    Option PersistedState :=
  match configGet cfg "auth" "API key" with
  | none => none
  | some k =>
      match configGet cfg "auth" "token" with
      | none => none
      | some t =>
          let wOk := (configGet cfg "window" "posx").isSome &&
            (configGet cfg "window" "posy").isSome &&
            (configGet cfg "window" "width").isSome &&
            (configGet cfg "window" "height").isSome
          some
            { apiKey := k, token := t,
              history :=
                match configGet cfg "search" "search strings" with
                | some s => (splitSemi s.data).map (fun l => String.mk l)
                | none => ["@me"],
              sortString := (configGet cfg "sort" "sort string").getD "board list",
              posx := if wOk then (configGet cfg "window" "posx").getD "0" else "0",
              posy := if wOk then (configGet cfg "window" "posy").getD "0" else "0",
              width := if wOk then (configGet cfg "window" "width").getD "540" else "540",
              height := if wOk then (configGet cfg "window" "height").getD "700" else "700" }

/-- A concrete card on board Alpha, list Doing. -/
def cardAlpha : Card :=
  { id := "a1", name := "Task A", url := "https://trello.com/c/a1", due := none,
    dueComplete := false, boardName := "Alpha",
    boardUrl := "https://trello.com/b/alpha", listName := "Doing",
    checkItems := 0, checkItemsChecked := 0 }

/-- A concrete card on board Beta, list Done. -/
def cardBeta : Card :=
  { id := "b1", name := "Task B", url := "https://trello.com/c/b1", due := none,
    dueComplete := false, boardName := "Beta",
    boardUrl := "https://trello.com/b/beta", listName := "Done",
    checkItems := 0, checkItemsChecked := 0 }

/-- A card whose list is named `Todo`, on a board with url `B`. -/
def cardPipe1 : Card :=
  { id := "p1", name := "P", url := "https://trello.com/c/p1", due := none,
    dueComplete := false, boardName := "beta", boardUrl := "B",
    listName := "Todo", checkItems := 0, checkItemsChecked := 0 }

/-- A card whose list is named `Todo|B`, colliding with the level-2 id of
`cardPipe1` under list-first sorting. -/
def cardPipe2 : Card :=
  { id := "p2", name := "Q", url := "https://trello.com/c/p2", due := none,
    dueComplete := false, boardName := "gamma", boardUrl := "C",
    listName := "Todo|B", checkItems := 0, checkItemsChecked := 0 }

/-- The card shown in a previous search: board 1, list `Todo`. -/
def cardPrevTodo : Card :=
  { id := "r1", name := "Old", url := "https://trello.com/c/r1", due := none,
    dueComplete := false, boardName := "One",
    boardUrl := "https://trello.com/b/1", listName := "Todo",
    checkItems := 0, checkItemsChecked := 0 }

/-- The card returned by the refreshed search: a different board, but a list
with the same name `Todo`. -/
def cardNewTodo : Card :=
  { id := "r2", name := "New", url := "https://trello.com/c/r2", due := none,
    dueComplete := false, boardName := "Two",
    boardUrl := "https://trello.com/b/2", listName := "Todo",
    checkItems := 0, checkItemsChecked := 0 }

/-- The tree of the previous search under the `'list'` preference, after the
user collapsed the `Todo` category node. -/
def prevTreeTodo : List TreeItem :=
  (showData 0 [SortCat.list] [] [cardPrevTodo]).map
    (fun it => if it.id = "Todo" then { it with isOpen := false } else it)

/-- A persisted state whose single remembered search string contains `;`. -/
def semicolonState : PersistedState :=
  { apiKey := "k", token := "t", history := ["a;b"],
    sortString := "board list", posx := "0", posy := "0",
    width := "540", height := "700" }

/-- A persisted state with ordinary values. -/
def plainState : PersistedState :=
  { apiKey := "0123456789abcdef0123456789abcdef", token := "tok",
    history := ["@me", "label:urgent"], sortString := "board",
    posx := "10", posy := "20", width := "500", height := "600" }

/-- An application state whose query entry is empty. -/
def stateEmptyEntry : AppState :=
  { entryText := "", history := ["@me"], tree := [] }

/-- An application state about to submit the query `@me`. -/
def stateMeEntry : AppState :=
  { entryText := "@me", history := ["@me"], tree := [] }

/-- C1: for a card that is not `dueComplete`, the classification depends only
on the due date relative to today: none when absent, `overdue` strictly
before today, `duetoday` on the day, `duethisweek` strictly after today and
strictly within 7 days, nothing otherwise. -/
theorem status_of_not_dueComplete (today : Int) (c : Card)
    (h : c.dueComplete = false) :
    statusTags today c =
      match c.due with
      | none => []
      | some d =>
          if d < today then ["overdue"]
          else if d = today then ["duetoday"]
          else if today < d ∧ d < today + 7 then ["duethisweek"]
          else [] := by
  cases hdue : c.due with
  | none => simp [statusTags, hdue]
  | some d =>
      simp only [statusTags, hdue, h, Bool.false_eq_true, if_false, gt_iff_lt]
      split_ifs <;> first | rfl | omega

/-- Witness for `status_of_not_dueComplete` at a concrete card. -/
theorem status_of_not_dueComplete_concrete :
    statusTags 0 cardOverdueChecked =
      match cardOverdueChecked.due with
      | none => []
      | some d =>
          if d < 0 then ["overdue"]
          else if d = 0 then ["duetoday"]
          else if 0 < d ∧ d < 0 + 7 then ["duethisweek"]
          else [] :=
  status_of_not_dueComplete 0 cardOverdueChecked rfl

/-- C2 counterexample: a card with `dueComplete = true` and no due date is
given the empty classification, not `complete`, because the code only
consults `dueComplete` inside the `if c['due']:` branch. -/
theorem complete_needs_due_counterexample :
    cardCompleteNoDue.dueComplete = true ∧ cardCompleteNoDue.due = none ∧
      statusTags 0 cardCompleteNoDue = [] ∧ statusTags 0 cardCompleteNoDue ≠ ["complete"] :=
  ⟨rfl, rfl, rfl, by decide⟩

/-- C2 amended: for every card with `dueComplete = true` that has a due
date, the classification is `complete` regardless of the due date value. -/
theorem complete_of_dueComplete_with_due (today d : Int) (c : Card)
    (hd : c.due = some d) (hc : c.dueComplete = true) :
    statusTags today c = ["complete"] := by
  simp [statusTags, hd, hc]

/-- Witness for `complete_of_dueComplete_with_due` at a concrete card. -/
theorem complete_of_dueComplete_with_due_concrete :
    statusTags 0 { cardCompleteNoDue with due := some 5 } = ["complete"] :=
  complete_of_dueComplete_with_due 0 5 _ rfl rfl

/-- C3 counterexample: an overdue card with a fully completed checklist is
tagged only `overdue`; the `100%` marker is suppressed because the code
requires `not tags`. -/
theorem fully_checked_counterexample :
    cardOverdueChecked.checkItems = 2 ∧ cardOverdueChecked.checkItemsChecked = 2 ∧
      cardTags 0 cardOverdueChecked = ["overdue"] ∧
      "100%" ∉ cardTags 0 cardOverdueChecked := by
  refine ⟨rfl, rfl, rfl, ?_⟩
  decide

/-- Every due-date status tag is one of the four fixed strings. -/
theorem statusTags_mem (today : Int) (c : Card) :
    ∀ x ∈ statusTags today c,
      x = "complete" ∨ x = "overdue" ∨ x = "duetoday" ∨ x = "duethisweek" := by
  intro x hx
  unfold statusTags at hx
  cases hdue : c.due with
  | none => rw [hdue] at hx; simp at hx
  | some d =>
      rw [hdue] at hx
      simp only [] at hx
      by_cases h0 : c.dueComplete = true
      · rw [if_pos h0] at hx
        simp only [List.mem_singleton] at hx
        exact Or.inl hx
      · rw [if_neg h0] at hx
        by_cases h1 : today > d
        · rw [if_pos h1] at hx
          simp only [List.mem_singleton] at hx
          exact Or.inr (Or.inl hx)
        · rw [if_neg h1] at hx
          by_cases h2 : today = d
          · rw [if_pos h2] at hx
            simp only [List.mem_singleton] at hx
            exact Or.inr (Or.inr (Or.inl hx))
          · rw [if_neg h2] at hx
            by_cases h3 : d - today < 7
            · rw [if_pos h3] at hx
              simp only [List.mem_singleton] at hx
              exact Or.inr (Or.inr (Or.inr hx))
            · rw [if_neg h3] at hx
              simp at hx

/-- C3 amended: the `100%` marker is present exactly when the card has no
due-date classification and its checklist exists and is fully checked. -/
theorem fully_checked_marker_iff (today : Int) (c : Card) :
    "100%" ∈ cardTags today c ↔
      (statusTags today c = [] ∧ c.checkItems ≠ 0 ∧
        c.checkItems = c.checkItemsChecked) := by
  have hns : "100%" ∉ statusTags today c := by
    intro hmem
    rcases statusTags_mem today c _ hmem with h | h | h | h <;> simp at h
  unfold cardTags
  split
  · rename_i hcond
    simp only [List.mem_append, List.mem_singleton]
    constructor
    · intro _; exact hcond
    · intro _; simp
  · rename_i hcond
    constructor
    · intro hmem; exact absurd hmem hns
    · intro hc; exact absurd hc hcond

/-- C5: a non-success status yields the empty list with no error; status 200
yields the `cards` field of the decoded body. -/
theorem search_cards_spec (resp : SearchResponse) :
    (resp.status ≠ 200 → search_cards resp = Except.ok []) ∧
    (∀ cs, resp.status = 200 → resp.cards = some cs →
      search_cards resp = Except.ok cs) := by
  constructor
  · intro h; simp [search_cards, h]
  · intro cs h hc; simp [search_cards, h, hc]

/-- Witness for `search_cards_spec` at a failing and a successful response. -/
theorem search_cards_spec_concrete :
    search_cards { status := 500, cards := none } = Except.ok [] ∧
    search_cards { status := 200, cards := some [cardAlpha] } =
      Except.ok [cardAlpha] :=
  ⟨(search_cards_spec _).1 (by decide),
   (search_cards_spec _).2 [cardAlpha] rfl rfl⟩

/-- C8: the startup probe keeps the credentials on status 200; on failure
with a 32-character key and `invalid token` in the response text only the
token is re-acquired; in every other failure case both are re-acquired. -/
theorem validate_credentials_spec (k t text : String) (status : Nat)
    (nk nt : String) :
    (status = 200 →
      applyCredAction (validate_credentials k status text) k t nk nt = (k, t)) ∧
    (status ≠ 200 → k.length = 32 → strContains "invalid token" text = true →
      applyCredAction (validate_credentials k status text) k t nk nt = (k, nt)) ∧
    (status ≠ 200 → ¬ (k.length = 32 ∧ strContains "invalid token" text = true) →
      applyCredAction (validate_credentials k status text) k t nk nt = (nk, nt)) := by
  refine ⟨?_, ?_, ?_⟩
  · intro h; simp [validate_credentials, h, applyCredAction]
  · intro h hk hc; simp [validate_credentials, h, hk, hc, applyCredAction]
  · intro h hnc; simp [validate_credentials, h, hnc, applyCredAction]

/-- Witness for `validate_credentials_spec` at the three kinds of probe
responses. -/
theorem validate_credentials_spec_concrete :
    applyCredAction
        (validate_credentials "0123456789abcdef0123456789abcdef" 401
          "invalid token")
        "0123456789abcdef0123456789abcdef" "t" "nk" "nt" =
      ("0123456789abcdef0123456789abcdef", "nt") ∧
    applyCredAction (validate_credentials "short" 401 "invalid key")
        "short" "t" "nk" "nt" = ("nk", "nt") ∧
    applyCredAction (validate_credentials "short" 200 "") "short" "t" "nk" "nt" =
      ("short", "t") :=
  ⟨(validate_credentials_spec _ _ _ _ _ _).2.1 (by decide) (by decide) (by decide),
   (validate_credentials_spec _ _ _ _ _ _).2.2 (by decide) (by decide),
   (validate_credentials_spec _ _ _ _ _ _).1 rfl⟩

/-- C10: with an empty query entry, `send_querystring` changes nothing and
issues no request (the result is the unchanged state for every `fetch`). -/
theorem send_querystring_empty_noop (today : Int) (fetch : String → List Card)
    (sorting : List SortCat) (st : AppState) (h : st.entryText = "") :
    send_querystring today fetch sorting st = st := by
  simp [send_querystring, h]

/-- Witness for `send_querystring_empty_noop` at a concrete state. -/
theorem send_querystring_empty_noop_concrete :
    send_querystring 0 (fun _ => []) [] stateEmptyEntry = stateEmptyEntry :=
  send_querystring_empty_noop 0 _ [] stateEmptyEntry rfl

/-- The query string is in the history after an update. -/
theorem mem_updateHistory_self (q : String) (h : List String) :
    q ∈ updateHistory q h := by
  unfold updateHistory
  split
  · assumption
  · exact List.mem_cons_self q h

/-- Updating with an already-remembered query string changes nothing. -/
theorem updateHistory_of_mem (q : String) (h : List String) (hm : q ∈ h) :
    updateHistory q h = h := by
  simp [updateHistory, hm]

/-- History updates preserve uniqueness of the entries. -/
theorem updateHistory_nodup (q : String) (h : List String) (hn : h.Nodup) :
    (updateHistory q h).Nodup := by
  unfold updateHistory
  split
  · exact hn
  · exact List.Nodup.cons (by assumption) hn

/-- Submitting a query never changes the text of the entry widget. -/
theorem send_querystring_entryText (today : Int) (fetch : String → List Card)
    (sorting : List SortCat) (st : AppState) :
    (send_querystring today fetch sorting st).entryText = st.entryText := by
  unfold send_querystring
  split <;> rfl

/-- History after submitting a nonempty query string. -/
theorem send_querystring_history (today : Int) (fetch : String → List Card)
    (sorting : List SortCat) (st : AppState) (he : st.entryText ≠ "") :
    (send_querystring today fetch sorting st).history =
      updateHistory st.entryText st.history := by
  unfold send_querystring
  rw [if_neg he]

/-- C7: submitting the same query twice leaves the history of the first
submission unchanged; a query already remembered changes nothing; the
history stays duplicate-free, so each query occurs at most once. -/
theorem send_querystring_history_unique (today today2 : Int)
    (fetch fetch2 : String → List Card) (sorting sorting2 : List SortCat)
    (st : AppState) :
    ((send_querystring today2 fetch2 sorting2
        (send_querystring today fetch sorting st)).history =
      (send_querystring today fetch sorting st).history) ∧
    (st.entryText ∈ st.history →
      (send_querystring today fetch sorting st).history = st.history) ∧
    (st.history.Nodup → (send_querystring today fetch sorting st).history.Nodup) ∧
    (∀ q : String, st.history.Nodup →
      (send_querystring today fetch sorting st).history.count q ≤ 1) := by
  by_cases he : st.entryText = ""
  · have h1 : send_querystring today fetch sorting st = st :=
      by simp [send_querystring, he]
    have h2 : send_querystring today2 fetch2 sorting2 st = st :=
      by simp [send_querystring, he]
    rw [h1, h2]
    refine ⟨rfl, fun _ => rfl, fun hn => hn, fun q hn => ?_⟩
    exact List.nodup_iff_count_le_one.mp hn q
  · have hst1 := send_querystring_history today fetch sorting st he
    have hentry := send_querystring_entryText today fetch sorting st
    have he2 : (send_querystring today fetch sorting st).entryText ≠ "" := by
      rw [hentry]; exact he
    refine ⟨?_, ?_, ?_, ?_⟩
    · rw [send_querystring_history today2 fetch2 sorting2 _ he2, hentry, hst1]
      exact updateHistory_of_mem _ _ (mem_updateHistory_self _ _)
    · intro hm
      rw [hst1]
      exact updateHistory_of_mem _ _ hm
    · intro hn
      rw [hst1]
      exact updateHistory_nodup _ _ hn
    · intro q hn
      rw [hst1]
      exact List.nodup_iff_count_le_one.mp (updateHistory_nodup _ _ hn) q

/-- Witness for `send_querystring_history_unique` at a concrete state. -/
theorem send_querystring_history_unique_concrete :
    ((send_querystring 0 (fun _ => []) []
        (send_querystring 0 (fun _ => []) [] stateMeEntry)).history =
      (send_querystring 0 (fun _ => []) [] stateMeEntry).history) ∧
    ((send_querystring 0 (fun _ => []) [] stateMeEntry).history =
      stateMeEntry.history) ∧
    (send_querystring 0 (fun _ => []) [] stateMeEntry).history.Nodup ∧
    (send_querystring 0 (fun _ => []) [] stateMeEntry).history.count "@me" ≤ 1 :=
  ⟨(send_querystring_history_unique 0 0 (fun _ => []) (fun _ => []) [] []
      stateMeEntry).1,
   (send_querystring_history_unique 0 0 (fun _ => []) (fun _ => []) [] []
      stateMeEntry).2.1 (by decide),
   (send_querystring_history_unique 0 0 (fun _ => []) (fun _ => []) [] []
      stateMeEntry).2.2.1 (by decide),
   (send_querystring_history_unique 0 0 (fun _ => []) (fun _ => []) [] []
      stateMeEntry).2.2.2 "@me" (by decide)⟩

/-- Splitting a semicolon-free character list returns the single part. -/
theorem splitSemi_no_semi (x : List Char) (hx : (';' : Char) ∉ x) :
    splitSemi x = [x] := by
  induction x with
  | nil => rfl
  | cons c rest ih =>
      have hc : c ≠ ';' := by
        intro h; exact hx (h ▸ List.mem_cons_self c rest)
      have hrest : (';' : Char) ∉ rest := fun h => hx (List.mem_cons_of_mem c h)
      unfold splitSemi
      rw [if_neg hc, ih hrest]

/-- Splitting past a semicolon-free prefix peels off exactly that part. -/
theorem splitSemi_join_cons (x : List Char) (hx : (';' : Char) ∉ x)
    (t : List Char) : splitSemi (x ++ ';' :: t) = x :: splitSemi t := by
  induction x with
  | nil => simp [splitSemi]
  | cons c rest ih =>
      have hc : c ≠ ';' := by
        intro h; exact hx (h ▸ List.mem_cons_self c rest)
      have hrest : (';' : Char) ∉ rest := fun h => hx (List.mem_cons_of_mem c h)
      rw [List.cons_append]
      rw [show splitSemi (c :: (rest ++ ';' :: t)) =
        (if c = ';' then [] :: splitSemi (rest ++ ';' :: t) else
          match splitSemi (rest ++ ';' :: t) with
          | r :: rs => (c :: r) :: rs
          | [] => [[c]]) from rfl]
      rw [if_neg hc, ih hrest]

/-- Joining with semicolons and splitting again is the identity on nonempty
lists of semicolon-free parts — Python `';'.join(l).split(';') == l`. -/
theorem splitSemi_joinSemi (l : List (List Char)) (hne : l ≠ [])
    (hsemi : ∀ p ∈ l, (';' : Char) ∉ p) :
    splitSemi (joinSemi l) = l := by
  induction l with
  | nil => exact absurd rfl hne
  | cons x rest ih =>
      cases rest with
      | nil =>
          have hx : (';' : Char) ∉ x := hsemi x (List.mem_cons_self x [])
          show splitSemi (joinSemi [x]) = [x]
          have hj : joinSemi [x] = x := rfl
          rw [hj, splitSemi_no_semi x hx]
      | cons y rest2 =>
          have hx : (';' : Char) ∉ x := hsemi x (List.mem_cons_self x (y :: rest2))
          have hj : joinSemi (x :: y :: rest2) = x ++ ';' :: joinSemi (y :: rest2) :=
            rfl
          rw [hj, splitSemi_join_cons x hx,
            ih (by simp) (fun p hp => hsemi p (List.mem_cons_of_mem x hp))]

/-- Rebuilding a string from its character data gives the string back. -/
theorem stringMk_data (s : String) : String.mk s.data = s := rfl

/-- C6 counterexample: a remembered search string containing a semicolon does
not survive the save/load round trip — `'a;b'` is read back as two entries. -/
theorem config_round_trip_counterexample :
    semicolonState.history = ["a;b"] ∧
    (loadConfig (saveConfig semicolonState)).map (fun s => s.history) =
      some ["a", "b"] ∧
    loadConfig (saveConfig semicolonState) ≠ some semicolonState := by
  refine ⟨rfl, ?_, ?_⟩ <;> decide

/-- C6 amended: for every persisted state whose search history is nonempty
and whose entries contain no semicolon, saving the settings file and loading
it back reproduces the credentials, the history entries in order, the sort
preference and the window geometry. -/
theorem config_round_trip (st : PersistedState) (hne : st.history ≠ [])
    (hsemi : ∀ s ∈ st.history, (';' : Char) ∉ s.data) :
    loadConfig (saveConfig st) = some st := by
  have hmapne : st.history.map (fun s => s.data) ≠ [] := by
    intro h
    cases hh : st.history with
    | nil => exact hne hh
    | cons a l => rw [hh] at h; simp at h
  have hjoin : splitSemi (joinSemi (st.history.map (fun s => s.data))) =
      st.history.map (fun s => s.data) :=
    splitSemi_joinSemi _ hmapne (by
      intro p hp
      rcases List.mem_map.mp hp with ⟨s, hs, rfl⟩
      exact hsemi s hs)
  have hAuthK : configGet (saveConfig st) "auth" "API key" = some st.apiKey := rfl
  have hAuthT : configGet (saveConfig st) "auth" "token" = some st.token := rfl
  have hSearch : configGet (saveConfig st) "search" "search strings" =
      some (String.mk (joinSemi (st.history.map (fun s => s.data)))) := rfl
  have hSort : configGet (saveConfig st) "sort" "sort string" =
      some st.sortString := rfl
  have hPx : configGet (saveConfig st) "window" "posx" = some st.posx := rfl
  have hPy : configGet (saveConfig st) "window" "posy" = some st.posy := rfl
  have hW : configGet (saveConfig st) "window" "width" = some st.width := rfl
  have hH : configGet (saveConfig st) "window" "height" = some st.height := rfl
  unfold loadConfig
  rw [hAuthK, hAuthT, hSearch, hSort, hPx, hPy, hW, hH]
  show some _ = some st
  congr 1
  have hdata : (String.mk (joinSemi (st.history.map (fun s => s.data)))).data =
      joinSemi (st.history.map (fun s => s.data)) := rfl
  simp only [hdata, hjoin, Option.getD_some, Option.isSome_some, Bool.and_self,
    if_pos, List.map_map]
  have hmapid : st.history.map
      ((fun l => String.mk l) ∘ (fun s => s.data)) = st.history := by
    rw [show ((fun l => String.mk l) ∘ (fun s => s.data)) = fun s : String => s by
      funext s; exact stringMk_data s]
    exact List.map_id st.history
  rw [hmapid]

/-- Witness for `config_round_trip` at a concrete persisted state. -/
theorem config_round_trip_concrete :
    loadConfig (saveConfig plainState) = some plainState :=
  config_round_trip plainState (by decide) (by decide)

/-- Looking up an id that was never recorded yields the default `true`. -/
theorem lookupOpen_recordOpenAux_of_notMem (full : List TreeItem) (i : String) :
    ∀ l : List TreeItem, i ∉ l.map (fun it => it.id) →
      lookupOpen (recordOpenAux full l) i = true := by
  intro l
  induction l with
  | nil => intro _; rfl
  | cons it rest ih =>
      intro hmem
      have hid : it.id ≠ i := by
        intro h
        exact hmem (by rw [List.map_cons]; exact h ▸ List.mem_cons_self _ _)
      have hrest : i ∉ rest.map (fun x => x.id) := by
        intro h
        exact hmem (by rw [List.map_cons]; exact List.mem_cons_of_mem _ h)
      show lookupOpen ((if hasChild full it.id then [(it.id, it.isOpen)] else []) ++
        recordOpenAux full rest) i = true
      by_cases hch : hasChild full it.id
      · rw [if_pos hch, List.singleton_append]
        unfold lookupOpen
        rw [if_neg hid]
        exact ih hrest
      · rw [if_neg hch, List.nil_append]
        exact ih hrest

/-- Looking up an id in the recorded open states returns the open state of
the item with that id when it had children, and `true` otherwise, provided
the walked items have distinct ids. -/
theorem lookupOpen_recordOpenAux (full : List TreeItem) (i : String) :
    ∀ l : List TreeItem, (l.map (fun it => it.id)).Nodup →
      lookupOpen (recordOpenAux full l) i =
        (match l.find? (fun p => decide (p.id = i)) with
         | some p => if hasChild full p.id then p.isOpen else true
         | none => true) := by
  intro l
  induction l with
  | nil => intro _; rfl
  | cons it rest ih =>
      intro hnd
      rw [List.map_cons, List.nodup_cons] at hnd
      by_cases hid : it.id = i
      · rw [List.find?_cons_of_pos _ (by simpa using hid)]
        show lookupOpen ((if hasChild full it.id then [(it.id, it.isOpen)] else []) ++
          recordOpenAux full rest) i =
          if hasChild full it.id then it.isOpen else true
        by_cases hch : hasChild full it.id
        · rw [if_pos hch, if_pos hch, List.singleton_append]
          unfold lookupOpen
          rw [if_pos hid]
        · rw [if_neg hch, if_neg hch, List.nil_append]
          exact lookupOpen_recordOpenAux_of_notMem full i rest (hid ▸ hnd.1)
      · rw [List.find?_cons_of_neg _ (by simpa using hid)]
        show lookupOpen ((if hasChild full it.id then [(it.id, it.isOpen)] else []) ++
          recordOpenAux full rest) i = _
        by_cases hch : hasChild full it.id
        · rw [if_pos hch, List.singleton_append]
          unfold lookupOpen
          rw [if_neg hid]
          exact ih hnd.2
        · rw [if_neg hch, List.nil_append]
          exact ih hnd.2

/-- Every item of `ensureItem st x` is an old item or the new item `x`. -/
theorem mem_ensureItem (st : List TreeItem) (x : TreeItem) :
    ∀ it ∈ ensureItem st x, it ∈ st ∨ it = x := by
  intro it hit
  unfold ensureItem at hit
  split at hit
  · exact Or.inl hit
  · rcases List.mem_append.mp hit with h | h
    · exact Or.inl h
    · exact Or.inr (List.mem_singleton.mp h)

/-- Every item of `insertCard` is an old item, a card leaf, or a category
node whose open state was looked up in `m` under its own id. -/
theorem mem_insertCard (today : Int) (sorting : List SortCat)
    (m : List (String × Bool)) (st : List TreeItem) (c : Card) :
    ∀ it ∈ insertCard today sorting m st c,
      it ∈ st ∨ it.kind = NodeKind.cardNode ∨ it.isOpen = lookupOpen m it.id := by
  intro it hit
  cases sorting with
  | nil =>
      rcases List.mem_append.mp hit with h | h
      · exact Or.inl h
      · right; left
        rw [List.mem_singleton.mp h]
        rfl
  | cons s0 rest =>
      cases rest with
      | nil =>
          rcases List.mem_append.mp hit with h | h
          · rcases mem_ensureItem st (cat1Item s0 m c) it h with h2 | h2
            · exact Or.inl h2
            · right; right
              rw [h2]
              rfl
          · right; left
            rw [List.mem_singleton.mp h]
            rfl
      | cons s1 rest2 =>
          rcases List.mem_append.mp hit with h | h
          · rcases mem_ensureItem _ (cat2Item (s0 :: s1 :: rest2) s0 s1 m c) it h
              with h2 | h2
            · rcases mem_ensureItem st (cat1Item s0 m c) it h2 with h3 | h3
              · exact Or.inl h3
              · right; right
                rw [h3]
                rfl
            · right; right
              rw [h2]
              rfl
          · right; left
            rw [List.mem_singleton.mp h]
            rfl

/-- In the rebuilt tree, every category node's open state is the value looked
up in the recorded dictionary under its id (default `true`). -/
theorem showData_isOpen (today : Int) (sorting : List SortCat)
    (m : List (String × Bool)) (cards : List Card) :
    ∀ it ∈ showData today sorting m cards, it.kind ≠ NodeKind.cardNode →
      it.isOpen = lookupOpen m it.id := by
  suffices h : ∀ (cs : List Card) (st : List TreeItem),
      (∀ it ∈ st, it.kind ≠ NodeKind.cardNode → it.isOpen = lookupOpen m it.id) →
      ∀ it ∈ cs.foldl (insertCard today sorting m) st,
        it.kind ≠ NodeKind.cardNode → it.isOpen = lookupOpen m it.id by
    intro it hit
    exact h (sortCards sorting cards) []
      (by intro it2 hit2; exact absurd hit2 (List.not_mem_nil it2)) it hit
  intro cs
  induction cs with
  | nil => intro st hst; simpa using hst
  | cons c rest ih =>
      intro st hst
      rw [List.foldl_cons]
      apply ih
      intro it hit hk
      rcases mem_insertCard today sorting m st c it hit with h | h | h
      · exact hst it h hk
      · exact absurd h hk
      · exact h

/-- C9 amended: after a refresh, every category node whose id already named
an expanded/collapsed node with children in the previous tree keeps that
state, and every other category node starts expanded; the id is the one
`show_data` derives from the sort preference (board url or list name at
level 1, the `'|'`-joined composite at level 2). -/
theorem show_data_open_preserved (today : Int) (sorting : List SortCat)
    (prev : List TreeItem) (hnd : (prev.map (fun it => it.id)).Nodup)
    (cards : List Card) :
    ∀ it ∈ showData today sorting (recordOpen prev) cards,
      it.kind ≠ NodeKind.cardNode →
      it.isOpen =
        (match prev.find? (fun p => decide (p.id = it.id)) with
         | some p => if hasChild prev p.id then p.isOpen else true
         | none => true) := by
  intro it hit hk
  rw [showData_isOpen today sorting (recordOpen prev) cards it hit hk]
  exact lookupOpen_recordOpenAux prev it.id prev hnd

/-- Witness for `show_data_open_preserved`, showing a collapsed `Todo` group
staying collapsed across a refresh. -/
theorem show_data_open_preserved_concrete :
    (({ id := "Todo", parent := "", isOpen := false, kind := NodeKind.cat1,
        text := "Todo", tags := ["cat1name"] } : TreeItem)).isOpen =
      (match prevTreeTodo.find? (fun p => decide (p.id = "Todo")) with
       | some p => if hasChild prevTreeTodo p.id then p.isOpen else true
       | none => true) :=
  show_data_open_preserved 0 [SortCat.list] prevTreeTodo (by decide)
    [cardNewTodo]
    { id := "Todo", parent := "", isOpen := false, kind := NodeKind.cat1,
      text := "Todo", tags := ["cat1name"] }
    (by decide) (by decide)

/-- C9 counterexample: under the `'list'` sort preference, the refreshed
search contains only a list on a different board, so by the claim's identity
(board url, or board url + list name) its category node appears for the first
time and should start expanded; the code keys the node by the list name
alone and renders it collapsed. -/
theorem open_state_identity_counterexample :
    cardNewTodo.boardUrl ≠ cardPrevTodo.boardUrl ∧
    cardNewTodo.listName = cardPrevTodo.listName ∧
    prevTreeTodo =
      [{ id := "Todo", parent := "", isOpen := false, kind := NodeKind.cat1,
         text := "Todo", tags := ["cat1name"] },
       { id := "card|https://trello.com/c/r1", parent := "Todo",
         isOpen := false, kind := NodeKind.cardNode, text := "Old", tags := [] }] ∧
    showData 0 [SortCat.list] (recordOpen prevTreeTodo) [cardNewTodo] =
      [{ id := "Todo", parent := "", isOpen := false, kind := NodeKind.cat1,
         text := "Todo", tags := ["cat1name"] },
       { id := "card|https://trello.com/c/r2", parent := "Todo",
         isOpen := false, kind := NodeKind.cardNode, text := "New", tags := [] }] := by
  refine ⟨by decide, rfl, by decide, by decide⟩

/-- Character-list comparison is trichotomous. -/
theorem charsLt_trichot (x y : List Char) :
    charsLt x y = true ∨ x = y ∨ charsLt y x = true := by
  induction x generalizing y with
  | nil => cases y with
    | nil => right; left; rfl
    | cons b bs => left; rfl
  | cons a as ih =>
      cases y with
      | nil => right; right; rfl
      | cons b bs =>
          rcases lt_trichotomy a b with h | h | h
          · left; simp [charsLt, h]
          · subst h
            rcases ih bs with h2 | h2 | h2
            · left; simp [charsLt, h2, lt_irrefl]
            · right; left; rw [h2]
            · right; right; simp [charsLt, h2, lt_irrefl]
          · right; right; simp [charsLt, h]

/-- Character-list comparison is transitive. -/
theorem charsLt_trans (x y z : List Char) (h1 : charsLt x y = true)
    (h2 : charsLt y z = true) : charsLt x z = true := by
  induction x generalizing y z with
  | nil =>
      cases z with
      | nil =>
          cases y with
          | nil => exact h1
          | cons b bs => simp [charsLt] at h2
      | cons c cs => rfl
  | cons a as ih =>
      cases y with
      | nil => simp [charsLt] at h1
      | cons b bs =>
          cases z with
          | nil => simp [charsLt] at h2
          | cons c cs =>
              simp only [charsLt] at h1 h2 ⊢
              by_cases hab : a < b
              · by_cases hbc : b < c
                · simp [lt_trans hab hbc]
                · by_cases hbc2 : b = c
                  · subst hbc2; simp [hab]
                  · simp [hbc, hbc2] at h2
              · by_cases hab2 : a = b
                · subst hab2
                  simp only [hab, if_false, if_pos rfl] at h1
                  by_cases hbc : a < c
                  · simp [hbc]
                  · by_cases hbc2 : a = c
                    · subst hbc2
                      simp only [hbc, if_false, if_pos rfl] at h2 ⊢
                      exact ih bs cs h1 h2
                    · simp [hbc, hbc2] at h2
                · simp [hab, hab2] at h1

/-- Character-list comparison is irreflexive. -/
theorem charsLt_irrefl (x : List Char) : charsLt x x = false := by
  induction x with
  | nil => rfl
  | cons a as ih => simp [charsLt, lt_irrefl, ih]

/-- String comparison is trichotomous. -/
theorem strLt_trichot (a b : String) :
    strLt a b = true ∨ a = b ∨ strLt b a = true := by
  rcases charsLt_trichot a.data b.data with h | h | h
  · left; exact h
  · right; left
    cases a; cases b; simp_all
  · right; right; exact h

/-- String comparison is transitive. -/
theorem strLt_trans (a b c : String) (h1 : strLt a b = true)
    (h2 : strLt b c = true) : strLt a c = true :=
  charsLt_trans a.data b.data c.data h1 h2

/-- String comparison is irreflexive. -/
theorem strLt_irrefl (a : String) : strLt a a = false :=
  charsLt_irrefl a.data

/-- Tuple comparison is total. -/
theorem lexLe_total (x y : List String) : lexLe x y = true ∨ lexLe y x = true := by
  induction x generalizing y with
  | nil => left; rfl
  | cons a as ih =>
      cases y with
      | nil => right; rfl
      | cons b bs =>
          rcases strLt_trichot a b with h | h | h
          · left; simp [lexLe, h]
          · subst h
            rcases ih bs with h2 | h2
            · left; simp [lexLe, h2, strLt_irrefl]
            · right; simp [lexLe, h2, strLt_irrefl]
          · right; simp [lexLe, h]

/-- Tuple comparison is transitive. -/
theorem lexLe_trans (x y z : List String) (h1 : lexLe x y = true)
    (h2 : lexLe y z = true) : lexLe x z = true := by
  induction x generalizing y z with
  | nil => rfl
  | cons a as ih =>
      cases y with
      | nil => simp [lexLe] at h1
      | cons b bs =>
          cases z with
          | nil => simp [lexLe] at h2
          | cons c cs =>
              simp only [lexLe] at h1 h2 ⊢
              by_cases hab : strLt a b = true
              · by_cases hbc : strLt b c = true
                · simp [strLt_trans a b c hab hbc]
                · by_cases hbc2 : b = c
                  · subst hbc2; simp [hab]
                  · simp [hbc, hbc2] at h2
              · by_cases hab2 : a = b
                · subst hab2
                  simp only [hab, if_false, if_pos rfl] at h1
                  by_cases hbc : strLt a c = true
                  · simp [hbc]
                  · by_cases hbc2 : a = c
                    · subst hbc2
                      simp only [hbc, if_false, if_pos rfl] at h2 ⊢
                      exact ih bs cs h1 h2
                    · simp [hbc, hbc2] at h2
                · simp [hab, hab2] at h1

/-- Membership through the first-occurrence fold. -/
theorem foldl_dedup_mem (l : List String) : ∀ (acc : List String) (x : String),
    (x ∈ l.foldl (fun acc a => if a ∈ acc then acc else acc ++ [a]) acc) ↔
      (x ∈ acc ∨ x ∈ l) := by
  induction l with
  | nil => intro acc x; simp
  | cons a as ih =>
      intro acc x
      rw [List.foldl_cons, ih]
      have hstep : x ∈ (if a ∈ acc then acc else acc ++ [a]) ↔ (x ∈ acc ∨ x = a) := by
        split
        · rename_i h
          constructor
          · exact Or.inl
          · rintro (h2 | h2)
            · exact h2
            · exact h2 ▸ h
        · simp [List.mem_append]
      rw [hstep]
      simp [List.mem_cons]
      tauto

/-- A value occurs among the first occurrences iff it occurs in the list. -/
theorem mem_dedupFirst (x : String) (l : List String) :
    x ∈ dedupFirst l ↔ x ∈ l := by
  unfold dedupFirst
  rw [foldl_dedup_mem]
  simp

/-- First occurrences of a list extended by one element. -/
theorem dedupFirst_append_single (l : List String) (a : String) :
    dedupFirst (l ++ [a]) =
      if a ∈ l then dedupFirst l else dedupFirst l ++ [a] := by
  unfold dedupFirst
  rw [List.foldl_append, List.foldl_cons, List.foldl_nil]
  by_cases h : a ∈ l
  · rw [if_pos ((foldl_dedup_mem l [] a).mpr (Or.inr h)), if_pos h]
  · rw [if_neg (fun hc => h (((foldl_dedup_mem l [] a).mp hc).resolve_left
      (List.not_mem_nil a))), if_neg h]

/-- An id exists in the tree iff some item carries it. -/
theorem existsId_eq_true (st : List TreeItem) (i : String) :
    existsId st i = true ↔ ∃ it, it ∈ st ∧ it.id = i := by
  simp [existsId, List.any_eq_true]

/-- Items survive `ensureItem`. -/
theorem mem_ensureItem_of_mem (st : List TreeItem) (x it : TreeItem)
    (h : it ∈ st) : it ∈ ensureItem st x := by
  unfold ensureItem
  split
  · exact h
  · exact List.mem_append.mpr (Or.inl h)

/-- Level-1 node ids after appending one item. -/
theorem topCatIds_append_item (st : List TreeItem) (x : TreeItem) :
    topCatIds (st ++ [x]) =
      topCatIds st ++ (if x.kind = NodeKind.cat1 then [x.id] else []) := by
  unfold topCatIds
  rw [List.filter_append, List.map_append]
  by_cases h : x.kind = NodeKind.cat1
  · simp [h]
  · simp [h]

/-- Level-1 node ids after an `ensureItem`. -/
theorem topCatIds_ensureItem (st : List TreeItem) (x : TreeItem) :
    topCatIds (ensureItem st x) =
      if existsId st x.id then topCatIds st
      else topCatIds st ++ (if x.kind = NodeKind.cat1 then [x.id] else []) := by
  unfold ensureItem
  split
  · rfl
  · rw [topCatIds_append_item]

/-- Level-2 node ids below `g` after appending one item. -/
theorem childCat2Ids_append_item (st : List TreeItem) (x : TreeItem) (g : String) :
    childCat2Ids (st ++ [x]) g =
      childCat2Ids st g ++
        (if x.kind = NodeKind.cat2 ∧ x.parent = g then [x.id] else []) := by
  unfold childCat2Ids
  rw [List.filter_append, List.map_append]
  by_cases h1 : x.kind = NodeKind.cat2
  · by_cases h2 : x.parent = g
    · simp [h1, h2]
    · simp [h1, h2]
  · simp [h1]

/-- Level-2 node ids below `g` after an `ensureItem`. -/
theorem childCat2Ids_ensureItem (st : List TreeItem) (x : TreeItem) (g : String) :
    childCat2Ids (ensureItem st x) g =
      if existsId st x.id then childCat2Ids st g
      else childCat2Ids st g ++
        (if x.kind = NodeKind.cat2 ∧ x.parent = g then [x.id] else []) := by
  unfold ensureItem
  split
  · rfl
  · rw [childCat2Ids_append_item]

/-- A level-1 id names some level-1 node of the tree. -/
theorem mem_topCatIds (st : List TreeItem) (i : String) :
    i ∈ topCatIds st ↔ ∃ it, it ∈ st ∧ it.kind = NodeKind.cat1 ∧ it.id = i := by
  unfold topCatIds
  simp [List.mem_filter]
  constructor
  · rintro ⟨it, ⟨h1, h2⟩, h3⟩
    exact ⟨it, h1, h2, h3⟩
  · rintro ⟨it, h1, h2, h3⟩
    exact ⟨it, ⟨h1, h2⟩, h3⟩

/-- A level-2 id below `g` names some level-2 node of the tree below `g`. -/
theorem mem_childCat2Ids (st : List TreeItem) (g i : String) :
    i ∈ childCat2Ids st g ↔
      ∃ it, it ∈ st ∧ it.kind = NodeKind.cat2 ∧ it.parent = g ∧ it.id = i := by
  unfold childCat2Ids
  simp [List.mem_filter]
  constructor
  · rintro ⟨it, ⟨h1, h2, h3⟩, h4⟩
    exact ⟨it, h1, h2, h3, h4⟩
  · rintro ⟨it, h1, h2, h3, h4⟩
    exact ⟨it, ⟨h1, h2, h3⟩, h4⟩

/-- Appending a card leaf does not change the level-1 node ids. -/
theorem topCatIds_append_card (st : List TreeItem) (today : Int) (c : Card)
    (p : String) : topCatIds (st ++ [mkCardItem today c p]) = topCatIds st := by
  rw [topCatIds_append_item]
  simp [mkCardItem]

/-- Appending a card leaf does not change the level-2 node ids. -/
theorem childCat2Ids_append_card (st : List TreeItem) (today : Int) (c : Card)
    (p g : String) :
    childCat2Ids (st ++ [mkCardItem today c p]) g = childCat2Ids st g := by
  rw [childCat2Ids_append_item]
  simp [mkCardItem]

/-- Ensuring a non-level-1 item does not change the level-1 node ids. -/
theorem topCatIds_ensureItem_of_ne (st : List TreeItem) (x : TreeItem)
    (h : x.kind ≠ NodeKind.cat1) : topCatIds (ensureItem st x) = topCatIds st := by
  rw [topCatIds_ensureItem, if_neg h, List.append_nil, ite_self]

/-- Ensuring a non-level-2 item does not change the level-2 node ids. -/
theorem childCat2Ids_ensureItem_of_ne (st : List TreeItem) (x : TreeItem)
    (g : String) (h : x.kind ≠ NodeKind.cat2) :
    childCat2Ids (ensureItem st x) g = childCat2Ids st g := by
  rw [childCat2Ids_ensureItem,
    if_neg (fun hand : x.kind = NodeKind.cat2 ∧ x.parent = g => h hand.1),
    List.append_nil, ite_self]

/-- Invariant step for a two-level sorting preference: inserting the next
card preserves the tree invariant, provided the node ids drawn from the
universe `U` of cards do not collide across levels. -/
theorem treeInv_insert₂ (today : Int) (m : List (String × Bool))
    (s0 s1 : SortCat) (rest2 : List SortCat) (U : List Card)
    (h13 : ∀ c ∈ U, ∀ d ∈ U, catIdOf s0 c ≠ cardNodeId d)
    (h12 : ∀ c ∈ U, ∀ d ∈ U, catIdOf s0 c ≠ cat2IdOf (s0 :: s1 :: rest2) d)
    (h23 : ∀ c ∈ U, ∀ d ∈ U, cat2IdOf (s0 :: s1 :: rest2) c ≠ cardNodeId d)
    (hinj : ∀ c ∈ U, ∀ d ∈ U,
      cat2IdOf (s0 :: s1 :: rest2) c = cat2IdOf (s0 :: s1 :: rest2) d →
      catIdOf s0 c = catIdOf s0 d)
    (P : List Card) (hPU : ∀ x ∈ P, x ∈ U) (c : Card) (hcU : c ∈ U)
    (st : List TreeItem) (hinv : treeInv (s0 :: s1 :: rest2) P st) :
    treeInv (s0 :: s1 :: rest2) (P ++ [c])
      (insertCard today (s0 :: s1 :: rest2) m st c) := by
  obtain ⟨htop, hchild, hm1, hm2, hm3⟩ := hinv
  have hA : existsId st (catIdOf s0 c) = true ↔
      catIdOf s0 c ∈ P.map (catIdOf s0) := by
    constructor
    · intro h
      rcases (existsId_eq_true st _).mp h with ⟨it, hit, hid⟩
      cases hkind : it.kind with
      | cat1 =>
          have hmem := hm1 it hit hkind
          rw [hid] at hmem
          exact hmem
      | cat2 =>
          have hmem := hm2 it hit hkind
          rw [hid] at hmem
          rcases List.mem_map.mp hmem with ⟨d, hdP, hd⟩
          exact absurd hd.symm (h12 c hcU d (hPU d hdP))
      | cardNode =>
          have hmem := hm3 it hit hkind
          rw [hid] at hmem
          rcases List.mem_map.mp hmem with ⟨d, hdP, hd⟩
          exact absurd hd.symm (h13 c hcU d (hPU d hdP))
    · intro h
      have hmem : catIdOf s0 c ∈ topCatIds st := by
        rw [htop]
        exact (mem_dedupFirst _ _).mpr h
      rcases (mem_topCatIds st _).mp hmem with ⟨it, hit, _, hid⟩
      exact (existsId_eq_true st _).mpr ⟨it, hit, hid⟩
  have hB : existsId (ensureItem st (cat1Item s0 m c))
        (cat2IdOf (s0 :: s1 :: rest2) c) = true ↔
      cat2IdOf (s0 :: s1 :: rest2) c ∈
        (P.filter (fun d => decide (catIdOf s0 d = catIdOf s0 c))).map
          (cat2IdOf (s0 :: s1 :: rest2)) := by
    constructor
    · intro h
      rcases (existsId_eq_true _ _).mp h with ⟨it, hit, hid⟩
      rcases mem_ensureItem st _ it hit with hmem | heq
      · cases hkind : it.kind with
        | cat1 =>
            have hmem2 := hm1 it hmem hkind
            rw [hid] at hmem2
            rcases List.mem_map.mp hmem2 with ⟨d, hdP, hd⟩
            exact absurd hd (h12 d (hPU d hdP) c hcU)
        | cat2 =>
            have hmem2 := hm2 it hmem hkind
            rw [hid] at hmem2
            rcases List.mem_map.mp hmem2 with ⟨d, hdP, hd⟩
            have hcat1 := hinj d (hPU d hdP) c hcU hd
            exact List.mem_map.mpr
              ⟨d, List.mem_filter.mpr ⟨hdP, decide_eq_true hcat1⟩, hd⟩
        | cardNode =>
            have hmem2 := hm3 it hmem hkind
            rw [hid] at hmem2
            rcases List.mem_map.mp hmem2 with ⟨d, hdP, hd⟩
            exact absurd hd.symm (h23 c hcU d (hPU d hdP))
      · rw [heq] at hid
        exact absurd hid (h12 c hcU c hcU)
    · intro h
      have h2 : cat2IdOf (s0 :: s1 :: rest2) c ∈
          childCat2Ids st (catIdOf s0 c) := by
        rw [hchild (catIdOf s0 c)]
        exact (mem_dedupFirst _ _).mpr h
      rcases (mem_childCat2Ids st _ _).mp h2 with ⟨it, hit, _, _, hid⟩
      exact (existsId_eq_true _ _).mpr ⟨it, mem_ensureItem_of_mem st _ it hit, hid⟩
  simp only [insertCard]
  refine ⟨?_, ?_, ?_, ?_, ?_⟩
  · rw [topCatIds_append_card,
      topCatIds_ensureItem_of_ne _ _ (by simp [cat2Item]), topCatIds_ensureItem]
    show (if existsId st (catIdOf s0 c) = true then topCatIds st
      else topCatIds st ++ [catIdOf s0 c]) =
      dedupFirst ((P ++ [c]).map (catIdOf s0))
    rw [List.map_append,
      show List.map (catIdOf s0) [c] = [catIdOf s0 c] from rfl,
      dedupFirst_append_single]
    by_cases hex : catIdOf s0 c ∈ P.map (catIdOf s0)
    · rw [if_pos (hA.mpr hex), if_pos hex, htop]
      rfl
    · rw [if_neg (fun hc => hex (hA.mp hc)), if_neg hex, htop]
      rfl
  · intro g'
    show childCat2Ids _ g' =
      dedupFirst (((P ++ [c]).filter
        (fun d => decide (catIdOf s0 d = g'))).map (cat2IdOf (s0 :: s1 :: rest2)))
    rw [childCat2Ids_append_card, List.filter_append]
    have hskip : childCat2Ids (ensureItem st (cat1Item s0 m c)) g' =
        childCat2Ids st g' :=
      childCat2Ids_ensureItem_of_ne _ _ g' (by simp [cat1Item])
    rw [childCat2Ids_ensureItem, hskip]
    simp only [cat2Item]
    by_cases hgg : catIdOf s0 c = g'
    · subst hgg
      have hfc : List.filter (fun d => decide (catIdOf s0 d = catIdOf s0 c)) [c] =
          [c] := by simp
      rw [hfc, List.map_append,
        show List.map (cat2IdOf (s0 :: s1 :: rest2)) [c] =
          [cat2IdOf (s0 :: s1 :: rest2) c] from rfl,
        dedupFirst_append_single]
      by_cases hex2 : cat2IdOf (s0 :: s1 :: rest2) c ∈
          (P.filter (fun d => decide (catIdOf s0 d = catIdOf s0 c))).map
            (cat2IdOf (s0 :: s1 :: rest2))
      · rw [if_pos hex2, if_pos (hB.mpr hex2), hchild (catIdOf s0 c)]
        rfl
      · rw [if_neg hex2, if_neg (fun hc => hex2 (hB.mp hc)),
          if_pos (⟨trivial, rfl⟩ : True ∧ catIdOf s0 c = catIdOf s0 c),
          hchild (catIdOf s0 c)]
        rfl
    · have hfc : List.filter (fun d => decide (catIdOf s0 d = g')) [c] = [] := by
        simp [hgg]
      rw [hfc, List.append_nil,
        if_neg (fun hand : True ∧ catIdOf s0 c = g' => hgg hand.2),
        List.append_nil, ite_self, hchild g']
      rfl
  · intro it hit hk
    show it.id ∈ (P ++ [c]).map (catIdOf s0)
    rw [List.map_append]
    rcases List.mem_append.mp hit with h | h
    · rcases mem_ensureItem _ _ it h with h2 | h2
      · rcases mem_ensureItem st _ it h2 with h3 | h3
        · exact List.mem_append.mpr (Or.inl (hm1 it h3 hk))
        · rw [h3]
          exact List.mem_append.mpr (Or.inr (List.mem_singleton_self _))
      · rw [h2] at hk
        simp [cat2Item] at hk
    · rw [List.mem_singleton.mp h] at hk
      simp [mkCardItem] at hk
  · intro it hit hk
    show it.id ∈ (P ++ [c]).map (cat2IdOf (s0 :: s1 :: rest2))
    rw [List.map_append]
    rcases List.mem_append.mp hit with h | h
    · rcases mem_ensureItem _ _ it h with h2 | h2
      · rcases mem_ensureItem st _ it h2 with h3 | h3
        · exact List.mem_append.mpr (Or.inl (hm2 it h3 hk))
        · rw [h3] at hk
          simp [cat1Item] at hk
      · rw [h2]
        exact List.mem_append.mpr (Or.inr (List.mem_singleton_self _))
    · rw [List.mem_singleton.mp h] at hk
      simp [mkCardItem] at hk
  · intro it hit hk
    show it.id ∈ (P ++ [c]).map cardNodeId
    rw [List.map_append]
    rcases List.mem_append.mp hit with h | h
    · rcases mem_ensureItem _ _ it h with h2 | h2
      · rcases mem_ensureItem st _ it h2 with h3 | h3
        · exact List.mem_append.mpr (Or.inl (hm3 it h3 hk))
        · rw [h3] at hk
          simp [cat1Item] at hk
      · rw [h2] at hk
        simp [cat2Item] at hk
    · rw [List.mem_singleton.mp h]
      exact List.mem_append.mpr (Or.inr (List.mem_singleton_self _))

/-- Invariant step for a single-level sorting preference. -/
theorem treeInv_insert₁ (today : Int) (m : List (String × Bool)) (s0 : SortCat)
    (U : List Card)
    (h13 : ∀ c ∈ U, ∀ d ∈ U, catIdOf s0 c ≠ cardNodeId d)
    (P : List Card) (hPU : ∀ x ∈ P, x ∈ U) (c : Card) (hcU : c ∈ U)
    (st : List TreeItem) (hinv : treeInv [s0] P st) :
    treeInv [s0] (P ++ [c]) (insertCard today [s0] m st c) := by
  obtain ⟨htop, hchild, hm1, hm2, hm3⟩ := hinv
  have hA : existsId st (catIdOf s0 c) = true ↔
      catIdOf s0 c ∈ P.map (catIdOf s0) := by
    constructor
    · intro h
      rcases (existsId_eq_true st _).mp h with ⟨it, hit, hid⟩
      cases hkind : it.kind with
      | cat1 =>
          have hmem := hm1 it hit hkind
          rw [hid] at hmem
          exact hmem
      | cat2 =>
          exact absurd (hm2 it hit hkind) (List.not_mem_nil _)
      | cardNode =>
          have hmem := hm3 it hit hkind
          rw [hid] at hmem
          rcases List.mem_map.mp hmem with ⟨d, hdP, hd⟩
          exact absurd hd.symm (h13 c hcU d (hPU d hdP))
    · intro h
      have hmem : catIdOf s0 c ∈ topCatIds st := by
        rw [htop]
        exact (mem_dedupFirst _ _).mpr h
      rcases (mem_topCatIds st _).mp hmem with ⟨it, hit, _, hid⟩
      exact (existsId_eq_true st _).mpr ⟨it, hit, hid⟩
  simp only [insertCard]
  refine ⟨?_, ?_, ?_, ?_, ?_⟩
  · rw [topCatIds_append_card, topCatIds_ensureItem]
    show (if existsId st (catIdOf s0 c) = true then topCatIds st
      else topCatIds st ++ [catIdOf s0 c]) =
      dedupFirst ((P ++ [c]).map (catIdOf s0))
    rw [List.map_append,
      show List.map (catIdOf s0) [c] = [catIdOf s0 c] from rfl,
      dedupFirst_append_single]
    by_cases hex : catIdOf s0 c ∈ P.map (catIdOf s0)
    · rw [if_pos (hA.mpr hex), if_pos hex, htop]
      rfl
    · rw [if_neg (fun hc => hex (hA.mp hc)), if_neg hex, htop]
      rfl
  · intro g'
    show childCat2Ids _ g' = ([] : List String)
    rw [childCat2Ids_append_card,
      childCat2Ids_ensureItem_of_ne _ _ g' (by simp [cat1Item]), hchild g']
    rfl
  · intro it hit hk
    show it.id ∈ (P ++ [c]).map (catIdOf s0)
    rw [List.map_append]
    rcases List.mem_append.mp hit with h | h
    · rcases mem_ensureItem st _ it h with h2 | h2
      · exact List.mem_append.mpr (Or.inl (hm1 it h2 hk))
      · rw [h2]
        exact List.mem_append.mpr (Or.inr (List.mem_singleton_self _))
    · rw [List.mem_singleton.mp h] at hk
      simp [mkCardItem] at hk
  · intro it hit hk
    rcases List.mem_append.mp hit with h | h
    · rcases mem_ensureItem st _ it h with h2 | h2
      · exact absurd (hm2 it h2 hk) (List.not_mem_nil _)
      · rw [h2] at hk
        simp [cat1Item] at hk
    · rw [List.mem_singleton.mp h] at hk
      simp [mkCardItem] at hk
  · intro it hit hk
    show it.id ∈ (P ++ [c]).map cardNodeId
    rw [List.map_append]
    rcases List.mem_append.mp hit with h | h
    · rcases mem_ensureItem st _ it h with h2 | h2
      · exact List.mem_append.mpr (Or.inl (hm3 it h2 hk))
      · rw [h2] at hk
        simp [cat1Item] at hk
    · rw [List.mem_singleton.mp h]
      exact List.mem_append.mpr (Or.inr (List.mem_singleton_self _))

/-- Invariant step for the empty sorting preference. -/
theorem treeInv_insert₀ (today : Int) (m : List (String × Bool))
    (P : List Card) (c : Card) (st : List TreeItem)
    (hinv : treeInv [] P st) :
    treeInv [] (P ++ [c]) (insertCard today [] m st c) := by
  obtain ⟨htop, hchild, hm1, hm2, hm3⟩ := hinv
  simp only [insertCard]
  refine ⟨?_, ?_, ?_, ?_, ?_⟩
  · rw [topCatIds_append_card, htop]
    rfl
  · intro g'
    rw [childCat2Ids_append_card, hchild g']
    rfl
  · intro it hit hk
    rcases List.mem_append.mp hit with h | h
    · exact absurd (hm1 it h hk) (List.not_mem_nil _)
    · rw [List.mem_singleton.mp h] at hk
      simp [mkCardItem] at hk
  · intro it hit hk
    rcases List.mem_append.mp hit with h | h
    · exact absurd (hm2 it h hk) (List.not_mem_nil _)
    · rw [List.mem_singleton.mp h] at hk
      simp [mkCardItem] at hk
  · intro it hit hk
    show it.id ∈ (P ++ [c]).map cardNodeId
    rw [List.map_append]
    rcases List.mem_append.mp hit with h | h
    · exact List.mem_append.mpr (Or.inl (hm3 it h hk))
    · rw [List.mem_singleton.mp h]
      exact List.mem_append.mpr (Or.inr (List.mem_singleton_self _))

/-- The empty tree satisfies the invariant for no processed cards. -/
theorem treeInv_nil (sorting : List SortCat) : treeInv sorting [] [] := by
  refine ⟨?_, ?_, ?_, ?_, ?_⟩
  · cases sorting with
    | nil => rfl
    | cons s0 rest => rfl
  · intro g
    cases sorting with
    | nil => rfl
    | cons s0 rest =>
        cases rest with
        | nil => rfl
        | cons s1 rest2 => rfl
  · intro it hit _
    exact absurd hit (List.not_mem_nil it)
  · intro it hit _
    exact absurd hit (List.not_mem_nil it)
  · intro it hit _
    exact absurd hit (List.not_mem_nil it)

/-- The invariant propagates through the whole insertion loop. -/
theorem treeInv_foldl (today : Int) (m : List (String × Bool))
    (sorting : List SortCat) (U : List Card)
    (hstep : ∀ (P : List Card) (c : Card) (st : List TreeItem),
      (∀ x ∈ P, x ∈ U) → c ∈ U → treeInv sorting P st →
      treeInv sorting (P ++ [c]) (insertCard today sorting m st c)) :
    ∀ (cs P : List Card) (st : List TreeItem),
      (∀ x ∈ P, x ∈ U) → (∀ x ∈ cs, x ∈ U) → treeInv sorting P st →
      treeInv sorting (P ++ cs) (cs.foldl (insertCard today sorting m) st) := by
  intro cs
  induction cs with
  | nil =>
      intro P st hP _ hinv
      rw [List.foldl_nil, List.append_nil]
      exact hinv
  | cons c rest ih =>
      intro P st hP hcs hinv
      rw [List.foldl_cons]
      have h1 := hstep P c st hP (hcs c (List.mem_cons_self c rest)) hinv
      have h2 := ih (P ++ [c]) (insertCard today sorting m st c)
        (by
          intro x hx
          rcases List.mem_append.mp hx with h | h
          · exact hP x h
          · exact (List.mem_singleton.mp h) ▸ hcs c (List.mem_cons_self c rest))
        (fun x hx => hcs x (List.mem_cons_of_mem c hx)) h1
      rw [List.append_assoc] at h2
      exact h2

/-- C4 amended: for every valid sort preference and every card list whose
derived node ids do not collide across levels, the cards are sorted by the
composite key of category names (the sorted sequence is a permutation of the
input, pairwise non-decreasing under the tuple comparison), the level-1
groups appear in exactly the order in which their ids first occur in the
sorted sequence, and the level-2 groups below each group `g` appear in
exactly the order in which their ids first occur among the sorted cards of
group `g`. -/
theorem show_data_sort_and_group (p : SortPref) (today : Int)
    (m : List (String × Bool)) (cards : List Card)
    (hids : idsOk p.sorting cards) :
    List.Perm (sortCards p.sorting cards) cards ∧
    List.Pairwise
      (fun a b => lexLe (sortKey p.sorting a) (sortKey p.sorting b) = true)
      (sortCards p.sorting cards) ∧
    topCatIds (showData today p.sorting m cards) =
      level1Ids p.sorting (sortCards p.sorting cards) ∧
    (∀ g, childCat2Ids (showData today p.sorting m cards) g =
      level2Ids p.sorting (sortCards p.sorting cards) g) := by
  have hperm : List.Perm (sortCards p.sorting cards) cards :=
    List.perm_insertionSort _ cards
  have hsorted : List.Pairwise
      (fun a b => lexLe (sortKey p.sorting a) (sortKey p.sorting b) = true)
      (sortCards p.sorting cards) := by
    haveI htot : IsTotal Card
        (fun a b => lexLe (sortKey p.sorting a) (sortKey p.sorting b) = true) :=
      ⟨fun a b => lexLe_total _ _⟩
    haveI htrans : IsTrans Card
        (fun a b => lexLe (sortKey p.sorting a) (sortKey p.sorting b) = true) :=
      ⟨fun a b c h1 h2 => lexLe_trans _ _ _ h1 h2⟩
    exact List.sorted_insertionSort
      (fun a b => lexLe (sortKey p.sorting a) (sortKey p.sorting b) = true) cards
  have hstep : ∀ (P : List Card) (c : Card) (st : List TreeItem),
      (∀ x ∈ P, x ∈ cards) → c ∈ cards → treeInv p.sorting P st →
      treeInv p.sorting (P ++ [c]) (insertCard today p.sorting m st c) := by
    cases hp : p.sorting with
    | nil =>
        intro P c st hP hc hinv
        exact treeInv_insert₀ today m P c st hinv
    | cons s0 rest =>
        rw [hp] at hids
        cases rest with
        | nil =>
            intro P c st hP hc hinv
            exact treeInv_insert₁ today m s0 cards hids.2 P hP c hc st hinv
        | cons s1 rest2 =>
            obtain ⟨-, h13, h12, h23, hinj⟩ := hids
            intro P c st hP hc hinv
            exact treeInv_insert₂ today m s0 s1 rest2 cards h13 h12 h23 hinj
              P hP c hc st hinv
  have hinv := treeInv_foldl today m p.sorting cards hstep
    (sortCards p.sorting cards) [] []
    (fun x hx => absurd hx (List.not_mem_nil x))
    (fun x hx => hperm.subset hx) (treeInv_nil p.sorting)
  rw [List.nil_append] at hinv
  obtain ⟨htop, hchild, -, -, -⟩ := hinv
  exact ⟨hperm, hsorted, htop, hchild⟩

/-- Witness for `show_data_sort_and_group` under the board-then-list
preference at two concrete cards. -/
theorem show_data_sort_and_group_concrete :
    idsOk [SortCat.board, SortCat.list] [cardAlpha, cardBeta] ∧
    (List.Perm (sortCards [SortCat.board, SortCat.list] [cardAlpha, cardBeta])
        [cardAlpha, cardBeta] ∧
      List.Pairwise
        (fun a b => lexLe (sortKey [SortCat.board, SortCat.list] a)
          (sortKey [SortCat.board, SortCat.list] b) = true)
        (sortCards [SortCat.board, SortCat.list] [cardAlpha, cardBeta]) ∧
      topCatIds (showData 0 [SortCat.board, SortCat.list] []
          [cardAlpha, cardBeta]) =
        level1Ids [SortCat.board, SortCat.list]
          (sortCards [SortCat.board, SortCat.list] [cardAlpha, cardBeta]) ∧
      (∀ g, childCat2Ids
          (showData 0 [SortCat.board, SortCat.list] [] [cardAlpha, cardBeta]) g =
        level2Ids [SortCat.board, SortCat.list]
          (sortCards [SortCat.board, SortCat.list] [cardAlpha, cardBeta]) g)) :=
  ⟨by decide,
   show_data_sort_and_group SortPref.boardList 0 [] [cardAlpha, cardBeta]
     (by decide : idsOk [SortCat.board, SortCat.list] [cardAlpha, cardBeta])⟩

/-- C4 counterexample: under the list-then-board preference, a card whose
list is named `Todo|B` collides with the level-2 id of a `Todo` list on
board `B`; tkinter ids are global, so the second card's top-level group is
never created and the rendered group order does not match the order of first
occurrence of the level-1 key values in the sorted sequence. -/
theorem group_order_counterexample :
    topCatIds (showData 0 [SortCat.list, SortCat.board] []
        [cardPipe1, cardPipe2]) = ["Todo"] ∧
    level1Ids [SortCat.list, SortCat.board]
        (sortCards [SortCat.list, SortCat.board] [cardPipe1, cardPipe2]) =
      ["Todo", "Todo|B"] ∧
    topCatIds (showData 0 [SortCat.list, SortCat.board] []
        [cardPipe1, cardPipe2]) ≠
      level1Ids [SortCat.list, SortCat.board]
        (sortCards [SortCat.list, SortCat.board] [cardPipe1, cardPipe2]) := by
  refine ⟨?_, ?_, ?_⟩ <;> decide

end TrelloRadar
